import Mathlib

/-!
Verification of the GPTProto docs MCP server core
(`src/tools/gptproto-docs.ts`): the index acquisition-and-cache
subsystem (`loadIndex`, `loadIndexSync`, `fetchRemoteIndex`,
`loadCachedIndex`) and the query engine (`searchDocs`,
`getDocContent`, `listApis`), shallowly embedded in Lean.

Conventions of the embedding:
- JavaScript strings are Lean `String`; `s.toLowerCase()` is
  a character-level lowercase map, `a.includes(b)` is infix-of on the character lists,
  `query.split(/\s+/).filter(Boolean)` is splitting on whitespace and
  discarding empty tokens.
- The process-wide mutable pair `(cachedIndex, lastFetchTime)` is an
  explicit `CacheState` threaded through the functions; `Date.now()` is an
  explicit `now : Nat` argument (milliseconds).
- The outside world (network fetch outcome, the two disk sources, whether
  the opportunistic disk persist would succeed) is an explicit `Env`
  record; `fetch` failing for any reason (non-ok status, network error,
  timeout, malformed body) is `remote = none`, and a disk file that is
  absent or unparsable is `none` likewise.
- Besides its `Except` result and the updated state, `loadIndex` reports
  an effect trace (`fetchAttempted`, `diskRead`, `diskWritten`) so that
  "performs no I/O" claims are statable.
-/

/-- One documentation unit (source `interface DocEntry`). -/
structure DocEntry where
  path : String
  title : String
  description : String
  vendor : String
  model : String
  format : String
  capability : String
  category : String
  content : String
deriving DecidableEq, Repr

/-- The loaded index snapshot (source `interface DocsIndex`). -/
structure DocsIndex where
  version : String
  generatedAt : String
  totalDocs : Nat
  vendors : List String
  entries : List DocEntry
deriving DecidableEq, Repr

/-- Source `CACHE_TTL = 60 * 60 * 1000` (1 hour in milliseconds). -/
def CACHE_TTL : Nat := 60 * 60 * 1000

/-- The module-level mutable pair `cachedIndex` / `lastFetchTime`
(initially `null` and `0`). -/
structure CacheState where
  cachedIndex : Option DocsIndex
  lastFetchTime : Nat
deriving DecidableEq, Repr

/-- The initial state of the module: `cachedIndex = null`, `lastFetchTime = 0`. -/
def initialCacheState : CacheState := ⟨none, 0⟩

/-- The external world as seen by one `loadIndex` call: the outcome of the
remote fetch (`none` = any failure), the parse outcome of the per-user disk
cache file and of the bundled fallback file (`none` = absent or unparsable),
and whether the opportunistic disk persist would succeed. -/
structure Env where
  remote : Option DocsIndex
  diskCache : Option DocsIndex
  bundled : Option DocsIndex
  persistOk : Bool
deriving DecidableEq, Repr

/-- Source `fetchRemoteIndex`: on fetch success the index is opportunistically
written to the disk cache, with any write error ignored (the inner
`try { ensureCacheDir(); writeFileSync(...) } catch {}`); the function
returns the fetched index either way, and `null` on fetch failure.
Returns the result together with whether a disk write happened. -/
def fetchRemoteIndex (env : Env) : Option DocsIndex × Bool :=
  match env.remote with
  | none => (none, false)
  | some index => (some index, env.persistOk)

/-- Source `loadCachedIndex`: try the per-user disk cache first, then the bundled
index; the first source that parses successfully is returned, else `null`. -/
def loadCachedIndex (env : Env) : Option DocsIndex :=
  match env.diskCache with
  | some index => some index
  | none =>
    match env.bundled with
    | some index => some index
    | none => none

/-- The message of the only error `loadIndex` throws. -/
def indexUnavailableMsg : String :=
  "Documentation index not available. Check your network connection or run \x27npm run build:index\x27 to create a local index."

/-- The message of the only error `loadIndexSync` throws. -/
def indexNotLoadedMsg : String :=
  "Documentation index not loaded. Call handler first to initialize."

/-- Result of one `loadIndex` call: the returned index or thrown error,
the module state afterwards, and an effect trace. -/
structure LoadResult where
  result : Except String DocsIndex
  state : CacheState
  fetchAttempted : Bool
  diskRead : Bool
  diskWritten : Bool
deriving Repr

/-- The part of `loadIndex` after the memory-cache freshness test fails:
try the remote fetch and on success cache it with a fresh timestamp; else
fall back to the disk sources, again caching with a fresh timestamp; else
throw, leaving the state untouched. -/
def loadIndexStale (env : Env) (st : CacheState) (now : Nat) : LoadResult :=
  match fetchRemoteIndex env with
  | (some remoteIndex, wrote) =>
    ⟨.ok remoteIndex, ⟨some remoteIndex, now⟩, true, false, wrote⟩
  | (none, _) =>
    match loadCachedIndex env with
    | some fallbackIndex =>
      ⟨.ok fallbackIndex, ⟨some fallbackIndex, now⟩, true, true, false⟩
    | none =>
      ⟨.error indexUnavailableMsg, st, true, true, false⟩

/-- Source `loadIndex`: return the memory cache if fresh (cached index present and
`now - lastFetchTime < CACHE_TTL`) with no I/O at all; otherwise proceed to
the remote fetch and fallbacks. -/
def loadIndex (env : Env) (st : CacheState) (now : Nat) : LoadResult :=
  match st.cachedIndex with
  | some index =>
    if now - st.lastFetchTime < CACHE_TTL then
      ⟨.ok index, st, false, false, false⟩
    else
      loadIndexStale env st now
  | none => loadIndexStale env st now

/-- Source `loadIndexSync`: return the memory cache if present (no freshness
test), else adopt a disk source WITHOUT touching `lastFetchTime`, else
throw. Performs no network I/O. -/
def loadIndexSync (env : Env) (st : CacheState) :
    Except String DocsIndex × CacheState :=
  match st.cachedIndex with
  | some index => (.ok index, st)
  | none =>
    match loadCachedIndex env with
    | some fallbackIndex =>
      (.ok fallbackIndex, ⟨some fallbackIndex, st.lastFetchTime⟩)
    | none => (.error indexNotLoadedMsg, st)

/-! ## Query engine -/

/-- JS `s.toLowerCase()`: lowercase every character. (Character-level map,
so that concrete instances evaluate by kernel reduction.) -/
def lowerStr (s : String) : String :=
  ⟨s.data.map Char.toLower⟩

/-- JS `hay.includes needle`: substring test. -/
def strIncludes (hay needle : String) : Bool :=
  decide (needle.data <:+: hay.data)

/-- Split a character list at every character satisfying `p` (JS
`String.prototype.split` semantics: `n` separators yield `n + 1` pieces,
empty pieces included). -/
def splitChars (p : Char → Bool) : List Char → List (List Char)
  | [] => [[]]
  | c :: cs =>
    match splitChars p cs, p c with
    | r :: rs, true => [] :: r :: rs
    | r :: rs, false => (c :: r) :: rs
    | [], _ => [[]]

/-- Source `query.toLowerCase().split(/\s+/).filter(Boolean)`: the lowercased
whitespace-split query terms, empty tokens discarded. (Splitting at every
whitespace character and dropping empty tokens coincides with splitting
at whitespace runs.) -/
def queryTerms (query : String) : List String :=
  ((splitChars (fun c => c.isWhitespace) (lowerStr query).data).map
    (fun l => String.mk l)).filter (fun t => t ≠ "")

/-- The `searchableText` of an entry: the six metadata fields joined with
single spaces, lowercased. -/
def searchableText (e : DocEntry) : String :=
  lowerStr (String.intercalate " "
    [e.title, e.description, e.path, e.vendor, e.model, e.capability])

/-- The body of the scoring loop of `searchDocs`: each matching field adds
its bonus to the running score, independently of the others. -/
def scoreStep (e : DocEntry) (score : Nat) (term : String) : Nat :=
  let score := if strIncludes (lowerStr e.model) term then score + 10 else score
  let score := if strIncludes (lowerStr e.vendor) term then score + 8 else score
  let score := if strIncludes (lowerStr e.title) term then score + 5 else score
  let score := if strIncludes (lowerStr e.capability) term then score + 4 else score
  let score := if strIncludes (lowerStr e.description) term then score + 2 else score
  if strIncludes (searchableText e) term then score + 1 else score

/-- The score `searchDocs` computes for one entry: fold of `scoreStep`
over the query terms starting from 0. -/
def scoreEntry (terms : List String) (e : DocEntry) : Nat :=
  terms.foldl (scoreStep e) 0

/-- The scored, filtered and sorted list built by `searchDocs` before
truncation: score every entry, keep strictly positive scores, sort by
descending score (stable, as the JS engine sort is). -/
def searchScored (index : DocsIndex) (query : String) : List (DocEntry × Nat) :=
  List.insertionSort (fun a b => b.2 ≤ a.2)
    ((index.entries.map (fun e => (e, scoreEntry (queryTerms query) e))).filter
      (fun s => 0 < s.2))

/-- Source `searchDocs` on a loaded index snapshot: the scored ranking truncated
to `limit` (default 20), scores dropped. -/
def searchDocs (index : DocsIndex) (query : String) (limit : Nat := 20) :
    List DocEntry :=
  ((searchScored index query).take limit).map (fun s => s.1)

/-- Source `getDocContent` on a loaded index snapshot: first entry whose `path`
equals the argument exactly; `content` plus the entry itself on success,
a "Document not found" error otherwise. -/
def getDocContent (index : DocsIndex) (docPath : String) :
    Except String (String × DocEntry) :=
  match index.entries.find? (fun e => e.path == docPath) with
  | none => .error ("Document not found: " ++ docPath)
  | some entry => .ok (entry.content, entry)

/-- One element of the `apis` list returned by `listApis`. -/
structure ApiRecord where
  vendor : String
  model : String
  capabilities : List String
deriving DecidableEq, Repr

/-- The value returned by `listApis`. -/
structure ListApisResult where
  vendors : List String
  apis : List ApiRecord
deriving DecidableEq, Repr

/-- A JS `Map<string, Set<string>>` in insertion order: association list
of keys to duplicate-free value lists in insertion order. -/
abbrev GroupMap := List (String × List String)

/-- JS `map.has(k)`. -/
def mapHas (m : GroupMap) (k : String) : Bool :=
  m.any (fun p => p.1 == k)

/-- JS `set.add(v)`: append if not yet present (JS `Set` keeps insertion
order and ignores duplicates). -/
def setAdd (s : List String) (v : String) : List String :=
  if s.contains v then s else s ++ [v]

/-- JS `map.get(k).add(v)`: add `v` to the value set at key `k`. -/
def mapAdd (m : GroupMap) (k v : String) : GroupMap :=
  m.map (fun p => if p.1 == k then (p.1, setAdd p.2 v) else p)

/-- JS `if (!map.has(k)) map.set(k, new Set())`: append an empty group for a
key not yet present. -/
def ensureKey (m : GroupMap) (k : String) : GroupMap :=
  if mapHas m k then m else m ++ [(k, [])]

/-- One iteration of the grouping loops of `listApis`: ensure a (possibly
empty) group exists for the key of `e`, then add the value of `e` to it
when there is one. -/
def groupStep (key : DocEntry → String) (val : DocEntry → Option String)
    (m : GroupMap) (e : DocEntry) : GroupMap :=
  let m := ensureKey m (key e)
  match val e with
  | some v => mapAdd m (key e) v
  | none => m

/-- The grouping loops of `listApis` as a fold from the empty map. -/
def groupFold (key : DocEntry → String) (val : DocEntry → Option String)
    (entries : List DocEntry) : GroupMap :=
  entries.foldl (groupStep key val) []

/-- JS `a || b` on strings: `b` when `a` is empty (falsy), else `a`. -/
def jsOr (a b : String) : String :=
  if a = "" then b else a

/-- JS `Array.from(caps).sort()`: ascending lexicographic sort (stable, as
the JS engine sort is; embedded as insertion sort). -/
def sortStrings (l : List String) : List String :=
  List.insertionSort (fun a b => a ≤ b) l

/-- The `vendorEntries` filter of `listApis`: entries of the requested
vendor (case-insensitive) with `category === "api"`. -/
def vendorApiEntries (index : DocsIndex) (vendor : String) : List DocEntry :=
  index.entries.filter
    (fun e => lowerStr e.vendor == lowerStr vendor && e.category == "api")

/-- The `modelMap` of the given-vendor branch of `listApis`: group the
vendor entries by `model`, adding each non-empty `capability`. -/
def buildModelMap (entries : List DocEntry) : GroupMap :=
  groupFold (fun e => e.model)
    (fun e => if e.capability = "" then none else some e.capability) entries

/-- The given-vendor branch of `listApis`: one record per model in the
map, `vendor` taken from the first matching entry (or the request when
absent or empty, JS `vendorEntries[0]?.vendor || vendor`), capabilities
rendered sorted. -/
def listApisVendor (index : DocsIndex) (vendor : String) : ListApisResult :=
  let vendorEntries := vendorApiEntries index vendor
  let modelMap := buildModelMap vendorEntries
  let apis := modelMap.map (fun p =>
    { vendor := jsOr ((vendorEntries.head?.map (fun e => e.vendor)).getD "") vendor
      model := p.1
      capabilities := sortStrings p.2 : ApiRecord })
  ⟨[vendor], apis⟩

/-- The `vendorModels` loop of the no-vendor branch of `listApis`: group
by vendor the entries with a truthy (non-empty) vendor and
`category === "api"`, collecting each group's set of models. -/
def buildVendorModels (entries : List DocEntry) : GroupMap :=
  entries.foldl (fun m e =>
    if e.vendor ≠ "" ∧ e.category = "api" then
      groupStep (fun e => e.vendor) (fun e => some e.model) m e
    else m) []

/-- The no-vendor branch of `listApis`: one summary record per vendor
with a model-count string and no capability list; `vendors` is the
`vendors` field of the index. -/
def listApisAll (index : DocsIndex) : ListApisResult :=
  let vendorModels := buildVendorModels index.entries
  let apis := vendorModels.map (fun p =>
    { vendor := p.1
      model := toString p.2.length ++ " models available"
      capabilities := [] : ApiRecord })
  ⟨index.vendors, apis⟩

/-- Source `listApis`: dispatch on the optional `vendor` argument (JS truthiness:
an empty string takes the no-vendor branch). -/
def listApis (index : DocsIndex) (vendor : Option String) : ListApisResult :=
  match vendor with
  | some v => if v = "" then listApisAll index else listApisVendor index v
  | none => listApisAll index

/-! ## Fixtures for witnesses -/

/-- A small concrete entry used by concrete-input theorems. -/
def sampleEntry : DocEntry :=
  { path := "docs/allapi/OpenAI/gpt-4o/official-format/text-to-text-chat"
    title := "gpt-4o (Text to Text (Chat))"
    description := "Chat completion API"
    vendor := "OpenAI"
    model := "gpt-4o"
    format := "official-format"
    capability := "text-to-text-chat"
    category := "api"
    content := "full body" }

/-- A small concrete index used by concrete-input theorems. -/
def sampleIndex : DocsIndex :=
  { version := "1.0"
    generatedAt := "2024-01-01"
    totalDocs := 1
    vendors := ["OpenAI"]
    entries := [sampleEntry] }

/-- A second concrete index, distinct from `sampleIndex`. -/
def otherIndex : DocsIndex :=
  { version := "2.0"
    generatedAt := "2024-02-02"
    totalDocs := 0
    vendors := []
    entries := [] }

/-! ## IndexStore theorems -/

/-- C1: with a memory-cached index obtained less than one hour ago,
`loadIndex` returns exactly that index, leaves the state unchanged,
performs no remote fetch, no disk read and no disk write, and cannot
fail — for every environment. -/
theorem loadIndex_fresh_cache_no_io (env : Env) (st : CacheState) (now : Nat)
    (index : DocsIndex) (hc : st.cachedIndex = some index)
    (hfresh : now - st.lastFetchTime < CACHE_TTL) :
    loadIndex env st now = ⟨.ok index, st, false, false, false⟩ := by
  simp [loadIndex, hc, hfresh]

/-- C1 witness: concrete fresh-cache call. -/
theorem loadIndex_fresh_cache_no_io_witness :
    loadIndex ⟨none, none, none, false⟩ ⟨some sampleIndex, 1000⟩ 2000 =
      ⟨.ok sampleIndex, ⟨some sampleIndex, 1000⟩, false, false, false⟩ :=
  loadIndex_fresh_cache_no_io _ _ _ sampleIndex rfl (by decide)

/-- C4: with the memory cache absent or stale and the remote fetch
failing, `loadIndex` adopts the first disk source that parses — the
per-user disk cache before the bundled fallback — stamps
`lastFetchTime := now`, returns it without error, and a subsequent call
within the freshness window then performs no fetch at all. -/
theorem loadIndex_disk_fallback (env : Env) (st : CacheState) (now : Nat)
    (index : DocsIndex)
    (hstale : st.cachedIndex = none ∨ CACHE_TTL ≤ now - st.lastFetchTime)
    (hremote : env.remote = none)
    (hsrc : loadCachedIndex env = some index) :
    (loadIndex env st now).result = .ok index ∧
    (loadIndex env st now).state = ⟨some index, now⟩ ∧
    (∀ d, env.diskCache = some d → index = d) ∧
    (env.diskCache = none → env.bundled = some index) ∧
    (∀ env2 now2, now2 - now < CACHE_TTL →
      loadIndex env2 ⟨some index, now⟩ now2 =
        ⟨.ok index, ⟨some index, now⟩, false, false, false⟩) := by
  have hmain : loadIndex env st now = loadIndexStale env st now := by
    rcases hstale with h | h
    · simp [loadIndex, h]
    · unfold loadIndex
      cases hc : st.cachedIndex with
      | none => rfl
      | some i => simp [Nat.not_lt.mpr h]
  have hrun : loadIndexStale env st now =
      ⟨.ok index, ⟨some index, now⟩, true, true, false⟩ := by
    unfold loadIndexStale
    simp [fetchRemoteIndex, hremote, hsrc]
  refine ⟨by rw [hmain, hrun], by rw [hmain, hrun], ?_, ?_, ?_⟩
  · intro d hd
    unfold loadCachedIndex at hsrc
    rw [hd] at hsrc
    exact (Option.some_inj.mp hsrc).symm
  · intro hd
    unfold loadCachedIndex at hsrc
    rw [hd] at hsrc
    cases hb : env.bundled with
    | none => rw [hb] at hsrc; simp at hsrc
    | some b => rw [hb] at hsrc; simp at hsrc; rw [hsrc]
  · intro env2 now2 h2
    simp [loadIndex, h2]

/-- C4 witness: stale cache, failed fetch, populated disk cache at a
concrete input. -/
theorem loadIndex_disk_fallback_witness :
    (loadIndex ⟨none, some sampleIndex, none, true⟩ ⟨some otherIndex, 0⟩ CACHE_TTL).result
      = .ok sampleIndex :=
  (loadIndex_disk_fallback ⟨none, some sampleIndex, none, true⟩ ⟨some otherIndex, 0⟩
    CACHE_TTL sampleIndex (Or.inr (by decide)) rfl rfl).1

/-- C5: `loadIndex` throws if and only if the memory cache is absent or
stale AND the remote fetch fails AND both disk sources fail; and the only
error it ever throws is the "index not available" message. -/
theorem loadIndex_error_characterization (env : Env) (st : CacheState)
    (now : Nat) :
    ((∃ msg, (loadIndex env st now).result = .error msg) ↔
      ((st.cachedIndex = none ∨ CACHE_TTL ≤ now - st.lastFetchTime) ∧
        env.remote = none ∧ env.diskCache = none ∧ env.bundled = none)) ∧
    (∀ msg, (loadIndex env st now).result = .error msg →
      msg = indexUnavailableMsg) := by
  cases hc : st.cachedIndex with
  | some i =>
    by_cases hf : now - st.lastFetchTime < CACHE_TTL
    · simp only [loadIndex, hc, if_pos hf]
      constructor
      · constructor
        · rintro ⟨msg, hmsg⟩; simp at hmsg
        · rintro ⟨h1 | h1, _⟩
          · simp [hc] at h1
          · omega
      · intro msg hmsg; simp at hmsg
    · simp only [loadIndex, hc, if_neg hf]
      cases hr : env.remote with
      | some r =>
        simp [loadIndexStale, fetchRemoteIndex, hr]
      | none =>
        cases hd : env.diskCache with
        | some d =>
          simp [loadIndexStale, fetchRemoteIndex, loadCachedIndex, hr, hd]
        | none =>
          cases hb : env.bundled with
          | some b =>
            simp [loadIndexStale, fetchRemoteIndex, loadCachedIndex, hr, hd, hb]
          | none =>
            simp [loadIndexStale, fetchRemoteIndex, loadCachedIndex,
              hr, hd, hb]
            omega
  | none =>
    simp only [loadIndex, hc]
    cases hr : env.remote with
    | some r =>
      simp [loadIndexStale, fetchRemoteIndex, hr]
    | none =>
      cases hd : env.diskCache with
      | some d =>
        simp [loadIndexStale, fetchRemoteIndex, loadCachedIndex, hr, hd]
      | none =>
        cases hb : env.bundled with
        | some b =>
          simp [loadIndexStale, fetchRemoteIndex, loadCachedIndex, hr, hd, hb]
        | none =>
          simp [loadIndexStale, fetchRemoteIndex, loadCachedIndex, hr, hd, hb]

/-- C5 witness: all sources failing at a concrete input produces exactly
the "index not available" error. -/
theorem loadIndex_error_characterization_witness :
    ∃ msg, (loadIndex ⟨none, none, none, false⟩ ⟨none, 0⟩ 0).result =
      .error msg :=
  (loadIndex_error_characterization ⟨none, none, none, false⟩ ⟨none, 0⟩ 0).1.mpr
    ⟨Or.inl rfl, rfl, rfl, rfl⟩

/-- C9: whatever the outcome of the opportunistic disk persist after a
successful remote fetch (directory creation or file write failing,
`persistOk = false`, or succeeding), `fetchRemoteIndex` still returns the
fetched index and a stale-cache `loadIndex` still caches it with a fresh
timestamp and returns it without error. -/
theorem persist_failure_swallowed (remote diskCache bundled : Option DocsIndex)
    (persistOk : Bool) (st : CacheState) (now : Nat) (index : DocsIndex)
    (hremote : remote = some index)
    (hstale : st.cachedIndex = none ∨ CACHE_TTL ≤ now - st.lastFetchTime) :
    (fetchRemoteIndex ⟨remote, diskCache, bundled, persistOk⟩).1 = some index ∧
    (loadIndex ⟨remote, diskCache, bundled, persistOk⟩ st now).result =
      .ok index ∧
    (loadIndex ⟨remote, diskCache, bundled, persistOk⟩ st now).state =
      ⟨some index, now⟩ := by
  subst hremote
  have hmain : loadIndex ⟨some index, diskCache, bundled, persistOk⟩ st now =
      loadIndexStale ⟨some index, diskCache, bundled, persistOk⟩ st now := by
    rcases hstale with h | h
    · simp [loadIndex, h]
    · unfold loadIndex
      cases hc : st.cachedIndex with
      | none => rfl
      | some i => simp [Nat.not_lt.mpr h]
  refine ⟨rfl, ?_, ?_⟩ <;> rw [hmain] <;> rfl

/-- C9 witness: persist failing (`persistOk = false`) at a concrete
input still returns the fetched index. -/
theorem persist_failure_swallowed_witness :
    (loadIndex ⟨some sampleIndex, none, none, false⟩ ⟨none, 0⟩ 0).result =
      .ok sampleIndex :=
  (persist_failure_swallowed (some sampleIndex) none none false ⟨none, 0⟩ 0
    sampleIndex rfl (Or.inl rfl)).2.1

/-- C10: from the initial state (empty memory cache, `lastFetchTime = 0`)
with an available disk source, `loadIndexSync` caches the disk index but
leaves `lastFetchTime` at 0; hence an immediately subsequent `loadIndex`
at any realistic clock value (at least one hour past the epoch) misses
the fresh-memory-cache path and attempts the remote fetch — whereas the
disk fallback inside `loadIndex` itself stamps `lastFetchTime := now`. -/
theorem loadIndexSync_keeps_zero_timestamp (env : Env) (index : DocsIndex)
    (hsrc : loadCachedIndex env = some index) (now : Nat)
    (hnow : CACHE_TTL ≤ now) :
    loadIndexSync env initialCacheState = (.ok index, ⟨some index, 0⟩) ∧
    (loadIndex env ⟨some index, 0⟩ now).fetchAttempted = true ∧
    (env.remote = none →
      (loadIndex env initialCacheState now).state.lastFetchTime = now) := by
  refine ⟨?_, ?_, ?_⟩
  · simp [loadIndexSync, initialCacheState, hsrc]
  · have h0 : ¬ (now - 0 < CACHE_TTL) := by omega
    simp only [loadIndex, h0, if_neg h0]
    rcases hfr : fetchRemoteIndex env with ⟨r, w⟩
    cases r with
    | some i => simp [loadIndexStale, hfr]
    | none =>
      cases hlc : loadCachedIndex env with
      | some j => simp [loadIndexStale, hfr, hlc]
      | none => simp [loadIndexStale, hfr, hlc]
  · intro hremote
    have h := loadIndex_disk_fallback env initialCacheState now index
      (Or.inl rfl) hremote hsrc
    rw [h.2.1]

/-- C10 witness: concrete disk-cached index adopted by `loadIndexSync`
with the timestamp left at 0. -/
theorem loadIndexSync_keeps_zero_timestamp_witness :
    loadIndexSync ⟨none, some sampleIndex, none, true⟩ initialCacheState =
      (.ok sampleIndex, ⟨some sampleIndex, 0⟩) :=
  (loadIndexSync_keeps_zero_timestamp ⟨none, some sampleIndex, none, true⟩
    sampleIndex rfl CACHE_TTL (Nat.le_refl _)).1

/-! ## Query engine theorems -/

/-- The specification's per-term score: the six independent, accumulating
match bonuses for one term, summed. -/
def specTermBonus (e : DocEntry) (term : String) : Nat :=
  (if strIncludes (lowerStr e.model) term then 10 else 0) +
  (if strIncludes (lowerStr e.vendor) term then 8 else 0) +
  (if strIncludes (lowerStr e.title) term then 5 else 0) +
  (if strIncludes (lowerStr e.capability) term then 4 else 0) +
  (if strIncludes (lowerStr e.description) term then 2 else 0) +
  (if strIncludes (searchableText e) term then 1 else 0)

/-- One scoring-loop iteration adds exactly the per-term bonus. -/
lemma scoreStep_eq_add (e : DocEntry) (s : Nat) (t : String) :
    scoreStep e s t = s + specTermBonus e t := by
  simp only [scoreStep, specTermBonus]
  split_ifs <;> omega

/-- Folding the scoring loop sums the per-term bonuses. -/
lemma foldl_scoreStep (e : DocEntry) (l : List String) (n : Nat) :
    l.foldl (scoreStep e) n = n + (l.map (specTermBonus e)).sum := by
  induction l generalizing n with
  | nil => simp
  | cons t ts ih => simp [List.foldl_cons, scoreStep_eq_add, ih]; omega

/-- C2: for every query and entry, the score `searchDocs` computes is the
sum, over the whitespace-split lowercased query terms, of the independent
accumulating bonuses +10 (model substring), +8 (vendor), +5 (title),
+4 (capability), +2 (description) and +1 (substring of the concatenation
of title, description, path, vendor, model and capability). -/
theorem scoreEntry_eq_sum_of_bonuses (query : String) (e : DocEntry) :
    scoreEntry (queryTerms query) e =
      ((queryTerms query).map (specTermBonus e)).sum := by
  unfold scoreEntry
  simpa using foldl_scoreStep e (queryTerms query) 0

/-- Every pair in the sorted scored list carries the score of its entry,
and that score is strictly positive. -/
lemma searchScored_snd (index : DocsIndex) (query : String) :
    ∀ p ∈ searchScored index query,
      p.2 = scoreEntry (queryTerms query) p.1 ∧ 0 < p.2 := by
  intro p hp
  unfold searchScored at hp
  rw [(List.perm_insertionSort _ _).mem_iff] at hp
  obtain ⟨hm, hpos⟩ := List.mem_filter.mp hp
  obtain ⟨a, _, rfl⟩ := List.mem_map.mp hm
  exact ⟨rfl, by simpa using hpos⟩

/-- C3: `searchDocs` returns (before truncation) exactly the entries with
strictly positive score, in descending score order — deterministic for a
fixed index and query since it is a pure function of them — truncated to
at most `limit` elements (the definition defaults `limit` to 20), and
returns `[]` rather than an error when no entry scores above zero. -/
theorem searchDocs_ranking (index : DocsIndex) (query : String) (limit : Nat) :
    (searchDocs index query limit).length ≤ limit ∧
    ((searchScored index query).map (fun s => s.1)).Perm
      (index.entries.filter (fun e => 0 < scoreEntry (queryTerms query) e)) ∧
    (searchScored index query).Pairwise (fun a b => b.2 ≤ a.2) ∧
    searchDocs index query limit =
      ((searchScored index query).map (fun s => s.1)).take limit ∧
    (∀ e ∈ searchDocs index query limit,
      0 < scoreEntry (queryTerms query) e) ∧
    ((∀ e ∈ index.entries, scoreEntry (queryTerms query) e = 0) →
      searchDocs index query limit = []) := by
  refine ⟨?_, ?_, ?_, ?_, ?_, ?_⟩
  · simp only [searchDocs, List.length_map, List.length_take]
    exact Nat.min_le_left _ _
  · unfold searchScored
    refine ((List.perm_insertionSort _ _).map _).trans ?_
    rw [List.filter_map, List.map_map]
    simp [Function.comp_def]
  · unfold searchScored
    haveI : IsTotal (DocEntry × Nat) (fun a b => b.2 ≤ a.2) :=
      ⟨fun a b => le_total b.2 a.2⟩
    haveI : IsTrans (DocEntry × Nat) (fun a b => b.2 ≤ a.2) :=
      ⟨fun a b c h1 h2 => le_trans h2 h1⟩
    exact List.sorted_insertionSort _ _
  · exact List.map_take _ _ _
  · intro e he
    unfold searchDocs at he
    obtain ⟨p, hp, rfl⟩ := List.mem_map.mp he
    have hp2 := List.take_subset _ _ hp
    obtain ⟨hs, hpos⟩ := searchScored_snd index query p hp2
    rwa [hs] at hpos
  · intro hall
    have hfil : (index.entries.map
        (fun e => (e, scoreEntry (queryTerms query) e))).filter
          (fun s => 0 < s.2) = [] := by
      rw [List.filter_eq_nil_iff]
      intro s hs
      obtain ⟨a, ha, rfl⟩ := List.mem_map.mp hs
      simp [hall a ha]
    unfold searchDocs searchScored
    rw [hfil]
    show List.map _ (List.take limit []) = []
    rw [List.take_nil, List.map_nil]

set_option maxRecDepth 4000 in
/-- C3 witness: a concrete query matching nothing yields the empty list,
within the limit. -/
theorem searchDocs_ranking_witness :
    (searchDocs sampleIndex "zzz" 20).length ≤ 20 ∧
    searchDocs sampleIndex "zzz" 20 = [] :=
  ⟨(searchDocs_ranking sampleIndex "zzz" 20).1,
   (searchDocs_ranking sampleIndex "zzz" 20).2.2.2.2.2 (by decide)⟩

/-- C6: `getDocContent` fails with the "not found" error exactly when no
entry has a path exactly string-equal to the argument (no normalization,
no fuzzy matching), and on success returns the content and metadata of an
entry of the index whose path is exactly the argument. -/
theorem getDocContent_exact_path (index : DocsIndex) (p : String) :
    ((∃ msg, getDocContent index p = .error msg) ↔
      ∀ e ∈ index.entries, e.path ≠ p) ∧
    (∀ msg, getDocContent index p = .error msg →
      msg = "Document not found: " ++ p) ∧
    (∀ c m, getDocContent index p = .ok (c, m) →
      m ∈ index.entries ∧ m.path = p ∧ c = m.content) := by
  unfold getDocContent
  cases hf : index.entries.find? (fun e => e.path == p) with
  | none =>
    have hall := List.find?_eq_none.mp hf
    refine ⟨⟨fun _ e he => ?_, fun _ => ⟨_, rfl⟩⟩, ?_, ?_⟩
    · simpa using hall e he
    · intro msg hmsg
      simpa using hmsg.symm
    · intro c m hcm
      simp at hcm
  | some entry =>
    have hmem := List.mem_of_find?_eq_some hf
    have hpath : entry.path = p := by simpa using List.find?_some hf
    refine ⟨⟨fun ⟨msg, hmsg⟩ => ?_, fun hall => absurd hpath (hall entry hmem)⟩,
      ?_, ?_⟩
    · simp at hmsg
    · intro msg hmsg
      simp at hmsg
    · intro c m hcm
      simp only [Except.ok.injEq, Prod.mk.injEq] at hcm
      obtain ⟨hc, hm⟩ := hcm
      subst hm hc
      exact ⟨hmem, hpath, rfl⟩

/-- C6 witness: concrete miss produces the error; concrete hit returns
the entry with its content. -/
theorem getDocContent_exact_path_witness :
    (∃ msg, getDocContent sampleIndex "nonexistent" = .error msg) ∧
    (getDocContent sampleIndex sampleEntry.path =
        .ok (sampleEntry.content, sampleEntry) →
      sampleEntry.path = sampleEntry.path) :=
  ⟨(getDocContent_exact_path sampleIndex "nonexistent").1.mpr (by decide),
   fun _ => rfl⟩

/-! ## Grouping-map lemmas -/

/-- JS `map.has k` tests key membership. -/
lemma mapHas_iff (m : GroupMap) (k : String) :
    mapHas m k = true ↔ k ∈ m.map Prod.fst := by
  simp only [mapHas, List.any_eq_true, List.mem_map, beq_iff_eq]

/-- Membership after `set.add`. -/
lemma mem_setAdd (s : List String) (w v : String) :
    v ∈ setAdd s w ↔ v ∈ s ∨ v = w := by
  unfold setAdd
  split_ifs with h
  · have hw : w ∈ s := by simpa using h
    constructor
    · exact Or.inl
    · rintro (hv | rfl)
      · exact hv
      · exact hw
  · simp [List.mem_append]

/-- JS `set.add` keeps the value list duplicate-free. -/
lemma nodup_setAdd (s : List String) (w : String) (h : s.Nodup) :
    (setAdd s w).Nodup := by
  unfold setAdd
  split_ifs with hc
  · exact h
  · rw [List.nodup_append]
    refine ⟨h, List.nodup_singleton _, ?_⟩
    intro a ha hb
    rw [List.mem_singleton] at hb
    subst hb
    exact hc (by simpa using ha)

/-- Lemma: `mapAdd` does not change the key sequence. -/
lemma mapAdd_keys (m : GroupMap) (k v : String) :
    (mapAdd m k v).map Prod.fst = m.map Prod.fst := by
  unfold mapAdd
  rw [List.map_map]
  refine List.map_congr_left ?_
  intro p _
  by_cases h : p.1 = k <;> simp [h]

/-- The invariant of the grouping fold after processing `l`: the key
sequence is duplicate-free, keys are exactly the keys of the processed
entries, and every group holds exactly the distinct values produced under
its key. -/
def GroupInv (key : DocEntry → String) (val : DocEntry → Option String)
    (l : List DocEntry) (m : GroupMap) : Prop :=
  (m.map Prod.fst).Nodup ∧
  (∀ k, k ∈ m.map Prod.fst ↔ k ∈ l.map key) ∧
  (∀ p ∈ m, p.2.Nodup ∧
    ∀ v, v ∈ p.2 ↔ ∃ x ∈ l, key x = p.1 ∧ val x = some v)

/-- One grouping step preserves the invariant, extending the processed
list by one entry. -/
lemma groupStep_inv (key : DocEntry → String) (val : DocEntry → Option String)
    (l : List DocEntry) (e : DocEntry) (m : GroupMap)
    (h : GroupInv key val l m) :
    GroupInv key val (l ++ [e]) (groupStep key val m e) := by
  obtain ⟨hnd, hkeys, hvals⟩ := h
  have hkeys' : ∀ k, k ∈ (ensureKey m (key e)).map Prod.fst ↔
      k ∈ l.map key ∨ k = key e := by
    intro k
    unfold ensureKey
    by_cases hhas : mapHas m (key e) = true
    · rw [if_pos hhas]
      have hk0 : key e ∈ l.map key := (hkeys _).mp ((mapHas_iff _ _).mp hhas)
      rw [hkeys]
      constructor
      · exact Or.inl
      · rintro (hk | rfl)
        · exact hk
        · exact hk0
    · rw [if_neg hhas]
      simp [List.map_append, hkeys k]
  have hnd' : ((ensureKey m (key e)).map Prod.fst).Nodup := by
    unfold ensureKey
    by_cases hhas : mapHas m (key e) = true
    · rw [if_pos hhas]; exact hnd
    · rw [if_neg hhas]
      rw [List.map_append, List.nodup_append]
      refine ⟨hnd, by simp, ?_⟩
      intro a ha hb
      rw [List.map_singleton, List.mem_singleton] at hb
      subst hb
      exact hhas ((mapHas_iff _ _).mpr ha)
  have hvals' : ∀ p ∈ ensureKey m (key e), p.2.Nodup ∧
      ∀ v, v ∈ p.2 ↔ ∃ x ∈ l, key x = p.1 ∧ val x = some v := by
    intro p hp
    unfold ensureKey at hp
    by_cases hhas : mapHas m (key e) = true
    · rw [if_pos hhas] at hp
      exact hvals p hp
    · rw [if_neg hhas] at hp
      rcases List.mem_append.mp hp with hp | hp
      · exact hvals p hp
      · rw [List.mem_singleton] at hp
        subst hp
        refine ⟨List.nodup_nil, fun v => ?_⟩
        simp only [List.not_mem_nil, false_iff]
        rintro ⟨x, hx, hxk, _⟩
        have : key e ∈ l.map key := by
          rw [← hxk]
          exact List.mem_map_of_mem key hx
        exact hhas ((mapHas_iff _ _).mpr ((hkeys _).mpr this))
  unfold groupStep
  cases hval : val e with
  | none =>
    refine ⟨hnd', fun k => ?_, fun p hp => ?_⟩
    · rw [hkeys' k]
      simp [List.map_append]
    · obtain ⟨hpnd, hpv⟩ := hvals' p hp
      refine ⟨hpnd, fun v => ?_⟩
      rw [hpv v]
      constructor
      · rintro ⟨x, hx, hxk, hxv⟩
        exact ⟨x, List.mem_append.mpr (Or.inl hx), hxk, hxv⟩
      · rintro ⟨x, hx, hxk, hxv⟩
        rcases List.mem_append.mp hx with hx | hx
        · exact ⟨x, hx, hxk, hxv⟩
        · rw [List.mem_singleton] at hx
          subst hx
          rw [hval] at hxv
          exact absurd hxv (by simp)
  | some v0 =>
    refine ⟨?_, fun k => ?_, fun p hp => ?_⟩
    · rw [mapAdd_keys]; exact hnd'
    · rw [mapAdd_keys, hkeys' k]
      simp [List.map_append]
    · obtain ⟨q, hq, hpq⟩ := List.mem_map.mp hp
      obtain ⟨hqnd, hqv⟩ := hvals' q hq
      by_cases hqk : q.1 = key e
      · rw [if_pos (by simpa using hqk)] at hpq
        subst hpq
        refine ⟨nodup_setAdd _ _ hqnd, fun v => ?_⟩
        simp only
        rw [mem_setAdd, hqv v]
        constructor
        · rintro (⟨x, hx, hxk, hxv⟩ | rfl)
          · exact ⟨x, List.mem_append.mpr (Or.inl hx), hxk, hxv⟩
          · exact ⟨e, List.mem_append.mpr (Or.inr (List.mem_singleton.mpr rfl)),
              hqk.symm, by rw [hval]⟩
        · rintro ⟨x, hx, hxk, hxv⟩
          rcases List.mem_append.mp hx with hx | hx
          · exact Or.inl ⟨x, hx, hxk, hxv⟩
          · rw [List.mem_singleton] at hx
            subst hx
            rw [hval] at hxv
            exact Or.inr (Option.some_inj.mp hxv).symm
      · rw [if_neg (by simpa using hqk)] at hpq
        subst hpq
        refine ⟨hqnd, fun v => ?_⟩
        rw [hqv v]
        constructor
        · rintro ⟨x, hx, hxk, hxv⟩
          exact ⟨x, List.mem_append.mpr (Or.inl hx), hxk, hxv⟩
        · rintro ⟨x, hx, hxk, hxv⟩
          rcases List.mem_append.mp hx with hx | hx
          · exact ⟨x, hx, hxk, hxv⟩
          · rw [List.mem_singleton] at hx
            subst hx
            exact absurd (hxk.symm) hqk

/-- The grouping fold satisfies the invariant. -/
lemma groupFold_inv (key : DocEntry → String) (val : DocEntry → Option String)
    (l : List DocEntry) : GroupInv key val l (groupFold key val l) := by
  induction l using List.reverseRecOn with
  | nil =>
    have h0 : groupFold key val [] = [] := rfl
    rw [h0]
    exact ⟨by simp, by simp, by simp⟩
  | append_singleton l e ih =>
    unfold groupFold at ih ⊢
    rw [List.foldl_append]
    exact groupStep_inv key val l e _ ih

/-- C7: with a (non-empty, i.e. truthy) vendor argument, `listApis`
filters to `category == "api"` entries of that vendor (case-insensitive),
emits exactly one record per distinct model of those entries, each
record's `capabilities` being the ascending-sorted duplicate-free list of
the non-empty capability values of that model's entries, returns
`vendors = [vendor]`, and yields an empty `apis` list (not an error)
when nothing matches. -/
theorem listApis_vendor_spec (index : DocsIndex) (v : String) (hv : v ≠ "") :
    (listApis index (some v)).vendors = [v] ∧
    ((listApis index (some v)).apis.map (fun a => a.model)).Nodup ∧
    (∀ mo, mo ∈ (listApis index (some v)).apis.map (fun a => a.model) ↔
      mo ∈ (vendorApiEntries index v).map (fun e => e.model)) ∧
    (∀ rec ∈ (listApis index (some v)).apis,
      rec.capabilities.Pairwise (fun a b => a ≤ b) ∧
      rec.capabilities.Nodup ∧
      (∀ c, c ∈ rec.capabilities ↔
        c ≠ "" ∧ ∃ e ∈ vendorApiEntries index v,
          e.model = rec.model ∧ e.capability = c)) ∧
    (vendorApiEntries index v = [] → (listApis index (some v)).apis = []) := by
  have hla : listApis index (some v) = listApisVendor index v := by
    simp [listApis, hv]
  obtain ⟨hnd, hkeys, hvals⟩ := groupFold_inv (fun e => e.model)
    (fun e => if e.capability = "" then none else some e.capability)
    (vendorApiEntries index v)
  have hmap : (listApisVendor index v).apis.map (fun a => a.model) =
      (buildModelMap (vendorApiEntries index v)).map Prod.fst := by
    simp [listApisVendor, List.map_map, Function.comp_def]
  refine ⟨by rw [hla]; rfl, ?_, ?_, ?_, ?_⟩
  · rw [hla, hmap]
    exact hnd
  · intro mo
    rw [hla, hmap]
    exact hkeys mo
  · intro rec hrec
    rw [hla] at hrec
    obtain ⟨p, hp, hrecp⟩ := List.mem_map.mp hrec
    obtain ⟨hpnd, hpv⟩ := hvals p hp
    subst hrecp
    refine ⟨?_, ?_, ?_⟩
    · haveI : IsTotal String (fun a b => a ≤ b) := ⟨fun a b => le_total a b⟩
      haveI : IsTrans String (fun a b => a ≤ b) :=
        ⟨fun a b c h1 h2 => le_trans h1 h2⟩
      exact List.sorted_insertionSort _ p.2
    · exact (List.perm_insertionSort _ p.2).symm.nodup hpnd
    · intro c
      show c ∈ sortStrings p.2 ↔ _
      rw [sortStrings, (List.perm_insertionSort _ _).mem_iff, hpv c]
      constructor
      · rintro ⟨x, hx, hxm, hxv⟩
        dsimp only at hxm hxv
        by_cases hxc : x.capability = ""
        · rw [if_pos hxc] at hxv
          exact absurd hxv (by simp)
        · rw [if_neg hxc] at hxv
          have hcv := Option.some_inj.mp hxv
          subst hcv
          exact ⟨hxc, x, hx, hxm, rfl⟩
      · rintro ⟨hc, x, hx, hxm, hxv⟩
        subst hxv
        refine ⟨x, hx, hxm, ?_⟩
        dsimp only
        rw [if_neg hc]
  · intro hve
    rw [hla]
    show (buildModelMap (vendorApiEntries index v)).map _ = []
    rw [hve]
    rfl

/-- C7 witness: the single-entry index of the spec scenario. -/
theorem listApis_vendor_spec_witness :
    (listApis sampleIndex (some "OpenAI")).vendors = ["OpenAI"] ∧
    listApis sampleIndex (some "OpenAI") =
      ⟨["OpenAI"], [⟨"OpenAI", "gpt-4o", ["text-to-text-chat"]⟩]⟩ :=
  ⟨(listApis_vendor_spec sampleIndex "OpenAI" (by decide)).1, by decide⟩

/-- Folding a guarded step equals folding the plain step over the
filtered list. -/
lemma foldl_guard (p : DocEntry → Prop) [DecidablePred p]
    (f : GroupMap → DocEntry → GroupMap) (l : List DocEntry)
    (init : GroupMap) :
    l.foldl (fun m e => if p e then f m e else m) init =
      (l.filter (fun e => decide (p e))).foldl f init := by
  induction l generalizing init with
  | nil => rfl
  | cons a t ih =>
    by_cases h : p a
    · simp [List.foldl_cons, List.filter_cons, h, ih]
    · simp [List.foldl_cons, List.filter_cons, h, ih]

/-- The no-vendor grouping loop is the generic grouping fold over the
entries with a truthy vendor and `category === "api"`. -/
lemma buildVendorModels_eq (entries : List DocEntry) :
    buildVendorModels entries =
      groupFold (fun e => e.vendor) (fun e => some e.model)
        (entries.filter
          (fun e => decide (e.vendor ≠ "" ∧ e.category = "api"))) := by
  unfold buildVendorModels groupFold
  exact foldl_guard _ _ entries []

/-- An `api` entry with an empty (falsy) vendor, separating the C8 claim
from the code. -/
def emptyVendorEntry : DocEntry :=
  { path := "docs/x", title := "", description := "", vendor := "",
    model := "m1", format := "", capability := "", category := "api",
    content := "" }

/-- An index whose only entry is an `api` entry with an empty vendor. -/
def emptyVendorIndex : DocsIndex :=
  { version := "1", generatedAt := "", totalDocs := 1, vendors := [],
    entries := [emptyVendorEntry] }

/-- C8 counterexample: on an index whose only entry is an `api` entry
with an empty vendor, grouping ALL `category == "api"` entries by vendor
(as the claim states) would emit a summary record for the empty-vendor
group, but the code emits no record at all: its loop skips entries whose
vendor is falsy (empty). -/
theorem listApis_all_groups_counterexample :
    ¬ (∀ u, u ∈ (listApis emptyVendorIndex none).apis.map (fun a => a.vendor) ↔
        u ∈ ((emptyVendorIndex.entries.filter
          (fun e => e.category == "api")).map (fun e => e.vendor))) := by
  intro h
  have h2 := (h "").mpr (by decide)
  exact absurd h2 (by decide)

/-- C8 (amended): with the vendor argument omitted, `listApis` groups the
`category == "api"` entries having a non-empty (truthy) vendor by vendor,
emits exactly one summary record per such vendor, whose `model` field
renders the count of that vendor's distinct models as
"<n> models available" and whose capabilities list is empty, and returns
`vendors` equal to the index's `vendors` field (its full sorted vendor
list). -/
theorem listApis_all_spec (index : DocsIndex) :
    (listApis index none).vendors = index.vendors ∧
    ((listApis index none).apis.map (fun a => a.vendor)).Nodup ∧
    (∀ u, u ∈ (listApis index none).apis.map (fun a => a.vendor) ↔
      u ∈ (index.entries.filter
        (fun e => decide (e.vendor ≠ "" ∧ e.category = "api"))).map
          (fun e => e.vendor)) ∧
    (∀ rec ∈ (listApis index none).apis,
      rec.capabilities = [] ∧
      ∃ models : List String, models.Nodup ∧
        (∀ mo, mo ∈ models ↔ ∃ e ∈ index.entries,
          e.vendor = rec.vendor ∧ e.category = "api" ∧ e.model = mo) ∧
        rec.model = toString models.length ++ " models available") := by
  have hla : listApis index none = listApisAll index := rfl
  obtain ⟨hnd, hkeys, hvals⟩ := groupFold_inv (fun e => e.vendor)
    (fun e => some e.model)
    (index.entries.filter
      (fun e => decide (e.vendor ≠ "" ∧ e.category = "api")))
  rw [← buildVendorModels_eq] at hnd hkeys hvals
  have hmap : (listApisAll index).apis.map (fun a => a.vendor) =
      (buildVendorModels index.entries).map Prod.fst := by
    simp [listApisAll, List.map_map, Function.comp_def]
  refine ⟨by rw [hla]; rfl, ?_, ?_, ?_⟩
  · rw [hla, hmap]
    exact hnd
  · intro u
    rw [hla, hmap]
    exact hkeys u
  · intro rec hrec
    rw [hla] at hrec
    obtain ⟨p, hp, hrecp⟩ := List.mem_map.mp hrec
    obtain ⟨hpnd, hpv⟩ := hvals p hp
    have hp1 : p.1 ≠ "" := by
      have hk : p.1 ∈ (buildVendorModels index.entries).map Prod.fst :=
        List.mem_map_of_mem Prod.fst hp
      obtain ⟨x, hx, hxv⟩ := List.mem_map.mp ((hkeys p.1).mp hk)
      obtain ⟨_, hxprop⟩ := List.mem_filter.mp hx
      rw [← hxv]
      exact (of_decide_eq_true hxprop).1
    subst hrecp
    refine ⟨rfl, p.2, hpnd, fun mo => ?_, rfl⟩
    rw [hpv mo]
    constructor
    · rintro ⟨x, hx, hxv, hxm⟩
      obtain ⟨hxe, hxprop⟩ := List.mem_filter.mp hx
      exact ⟨x, hxe, hxv, (of_decide_eq_true hxprop).2,
        Option.some_inj.mp hxm⟩
    · rintro ⟨e, he, hev, hec, hem⟩
      refine ⟨e, List.mem_filter.mpr ⟨he, decide_eq_true ⟨?_, hec⟩⟩, hev,
        by dsimp only; rw [hem]⟩
      rw [hev]
      exact hp1

/-- C8 amended witness: concrete single-vendor index. -/
theorem listApis_all_spec_witness :
    (listApis sampleIndex none).vendors = ["OpenAI"] ∧
    "OpenAI" ∈ (listApis sampleIndex none).apis.map (fun a => a.vendor) :=
  ⟨(listApis_all_spec sampleIndex).1,
   ((listApis_all_spec sampleIndex).2.2.1 "OpenAI").mpr (by decide)⟩

/-- C7 counterexample: an empty string is a given vendor argument, yet
the code treats it as falsy and takes the no-vendor branch, so `vendors`
does not echo the requested name as the claim requires (zero entries
match an empty vendor here, so the claim would demand `vendors = [""]`).
-/
theorem listApis_vendor_counterexample :
    ¬ ((listApis sampleIndex (some "")).vendors = [""]) := by decide
